import Mathlib

/-!
Verification of the country-capital resolution engine of `src/main.py`
against its natural-language specification.

The embedding is shallow:
* Python strings are Lean `String`s; the Python string methods used by the
  source (`lower`, `strip`, `capitalize`) are modelled character-wise over
  `String.data` so that everything reduces in the kernel.
* The module-level dict `countryCapital` is modelled as an association list
  with Python-dict semantics (update in place on the first matching key,
  append otherwise; insertion order preserved).
* Network I/O (`requests.get`) is modelled by passing the outcome of the
  request (`HttpResult`) as an explicit argument; the cached global
  `all_countries_cache` and the persisted JSON sequence are threaded through
  an explicit `AppState`.
* The fuzzy matcher (`fuzzywuzzy`'s `fuzz.ratio` under `process.extract`) is
  third-party code that is not part of this repository's sources, so it is
  modelled from the specification's description (see `lev`, `ratioScore`,
  `extract`).
-/

namespace WebApp

/-- Python `str.lower()` for the ASCII data handled by the app: lowercase
every character. Modelled character-wise so it evaluates in the kernel. -/
def pyLower (s : String) : String :=
  ⟨s.data.map Char.toLower⟩

/-- Python `str.strip()`: drop leading and trailing whitespace. -/
def pyStrip (s : String) : String :=
  ⟨((s.data.dropWhile Char.isWhitespace).reverse.dropWhile Char.isWhitespace).reverse⟩

/-- Python `str.capitalize()`: uppercase the first character, lowercase the
rest. This is the "display form" transform the source applies (`.capitalize()`
on line 78, 93, etc. of `src/main.py`). -/
def pyCapitalize (s : String) : String :=
  match s.data with
  | [] => ⟨[]⟩
  | c :: cs => ⟨Char.toUpper c :: cs.map Char.toLower⟩

/-! ### The fuzzy matcher

Modelled from the spec: the scoring metric of `Matcher.rank` (§4.4), realised
in the source by the third-party `fuzzywuzzy` library which is not under
`src/`. The spec describes "an edit-distance-ratio style metric (symmetric,
100 = identical, 0 = disjoint)" computed "between the normalized query and
each normalized corpus entry". We use the insert/delete edit distance `lev`
(substitution is two operations), so that the score
`⌊100·(|s|+|t| − lev s t)/(|s|+|t|)⌋` equals `⌊200·M/(|s|+|t|)⌋` with `M` the
length of a longest common subsequence: symmetric, 100 exactly on identical
strings, and 0 on strings sharing no character. -/

/-- Modelled from the spec: one row step of the insert/delete edit distance.
`levAux x f ys = lev (x :: xs) ys` where `f = lev xs`; structured this way so
the recursion is structural and kernel-reducible. -/
def levAux (x : Char) (f : List Char → Nat) : List Char → Nat
  | [] => f [] + 1
  | y :: ys => if x = y then f ys else 1 + min (f (y :: ys)) (levAux x f ys)

/-- Modelled from the spec: insert/delete edit distance between two character
lists ("edit-distance" of §4.4's metric, with substitution counted as a
delete plus an insert). -/
def lev : List Char → List Char → Nat
  | [], ys => ys.length
  | x :: xs, ys => levAux x (lev xs) ys

@[simp] theorem lev_nil_left (ys : List Char) : lev [] ys = ys.length := rfl

@[simp] theorem lev_nil_right (xs : List Char) : lev xs [] = xs.length := by
  induction xs with
  | nil => rfl
  | cons x xs ih => show levAux x (lev xs) [] = xs.length + 1; simp [levAux, ih]

theorem lev_cons_cons (x y : Char) (xs ys : List Char) :
    lev (x :: xs) (y :: ys)
      = if x = y then lev xs ys
        else 1 + min (lev xs (y :: ys)) (lev (x :: xs) ys) := rfl

/-- The insert/delete edit distance is symmetric. -/
theorem lev_symm (s t : List Char) : lev s t = lev t s := by
  induction s generalizing t with
  | nil => simp
  | cons x xs ihx =>
      induction t with
      | nil => simp
      | cons y ys ihy =>
          rw [lev_cons_cons, lev_cons_cons]
          by_cases hxy : x = y
          · simp [hxy, ihx ys]
          · have hyx : ¬ y = x := fun h => hxy h.symm
            rw [if_neg hxy, if_neg hyx, ihx (y :: ys), ihy]
            rw [Nat.min_comm]

/-- The insert/delete edit distance is at most the sum of the lengths. -/
theorem lev_le (s t : List Char) : lev s t ≤ s.length + t.length := by
  induction s generalizing t with
  | nil => simp
  | cons x xs ihx =>
      induction t with
      | nil => simp
      | cons y ys ihy =>
          rw [lev_cons_cons]
          by_cases hxy : x = y
          · rw [if_pos hxy]
            have := ihx ys
            simp only [List.length_cons]
            omega
          · rw [if_neg hxy]
            have h1 := ihx (y :: ys)
            have h2 := Nat.min_le_left (lev xs (y :: ys)) (lev (x :: xs) ys)
            simp only [List.length_cons] at *
            omega

/-- The insert/delete edit distance vanishes exactly on equal lists. -/
theorem lev_eq_zero_iff (s t : List Char) : lev s t = 0 ↔ s = t := by
  induction s generalizing t with
  | nil =>
      cases t with
      | nil => simp
      | cons y ys => simp
  | cons x xs ihx =>
      cases t with
      | nil => simp
      | cons y ys =>
          rw [lev_cons_cons]
          by_cases hxy : x = y
          · simp [hxy, ihx ys]
          · simp [hxy, if_neg hxy]

/-- Modelled from the spec: the similarity score of §4.4's metric, an integer
in [0,100], as the edit-distance ratio `⌊100·(L − d)/L⌋` with
`L = |s| + |t|` and `d = lev s t` (two empty strings are identical: 100). -/
def ratioScore (s t : List Char) : Nat :=
  if s.length + t.length = 0 then 100
  else (100 * (s.length + t.length - lev s t)) / (s.length + t.length)

theorem ratioScore_le_100 (s t : List Char) : ratioScore s t ≤ 100 := by
  unfold ratioScore
  split
  · exact Nat.le_refl 100
  · rename_i h
    calc 100 * (s.length + t.length - lev s t) / (s.length + t.length)
        ≤ 100 * (s.length + t.length) / (s.length + t.length) :=
          Nat.div_le_div_right (Nat.mul_le_mul_left _ (Nat.sub_le _ _))
      _ = 100 := Nat.mul_div_cancel 100 (Nat.pos_of_ne_zero h)

theorem ratioScore_symm (s t : List Char) : ratioScore s t = ratioScore t s := by
  unfold ratioScore
  rw [lev_symm, Nat.add_comm s.length t.length]

theorem ratioScore_eq_100_iff (s t : List Char) : ratioScore s t = 100 ↔ s = t := by
  unfold ratioScore
  split
  · rename_i h
    have hs : s.length = 0 := by omega
    have ht : t.length = 0 := by omega
    rw [List.length_eq_zero] at hs ht
    subst hs; subst ht; simp
  · rename_i h
    have hL : 0 < s.length + t.length := Nat.pos_of_ne_zero h
    have hle := lev_le s t
    constructor
    · intro h100
      have h1 : 100 ≤ 100 * (s.length + t.length - lev s t) / (s.length + t.length) :=
        Nat.le_of_eq h100.symm
      have h2 : 100 * (s.length + t.length) ≤ 100 * (s.length + t.length - lev s t) :=
        (Nat.le_div_iff_mul_le hL).mp h1
      have h3 : lev s t = 0 := by omega
      exact (lev_eq_zero_iff s t).mp h3
    · intro hst
      subst hst
      have h0 : lev s s = 0 := (lev_eq_zero_iff s s).mpr rfl
      rw [h0, Nat.sub_zero, Nat.mul_div_cancel 100 hL]

/-- Modelled from the spec: the Normalizer (§4.1) used by `Matcher.rank`
before scoring — "trims surrounding whitespace, case-folds to lowercase"
(in the source this is the preprocessing `process.extract` applies to the
query and each choice). -/
def normalize (s : String) : String := pyLower (pyStrip s)

/-- Modelled from the spec: the score `Matcher.rank` assigns a corpus entry,
computed between the normalized query and the normalized entry (§4.4). -/
def matchScore (query choice : String) : Nat :=
  ratioScore (normalize query).data (normalize choice).data

/-- Modelled from the spec: stable insertion of a scored candidate into a
list sorted by descending score; an element inserted this way is placed
before later-corpus candidates with an equal score ("ties broken by corpus
iteration order", §4.4). -/
def insertDesc (p : String × Nat) : List (String × Nat) → List (String × Nat)
  | [] => [p]
  | q :: qs => if p.2 < q.2 then q :: insertDesc p qs else p :: q :: qs

/-- Modelled from the spec: stable sort of scored candidates by descending
score (§4.4). -/
def sortDesc : List (String × Nat) → List (String × Nat)
  | [] => []
  | p :: ps => insertDesc p (sortDesc ps)

/-- Modelled from the spec: `fuzzywuzzy`'s `process.extract(query, choices,
scorer=fuzz.ratio, limit=limit)` as described by §4.4's `Matcher.rank`:
score every corpus entry against the query and return the top `limit`
candidates by descending score. -/
def extract (query : String) (choices : List String) (limit : Nat) :
    List (String × Nat) :=
  (sortDesc (choices.map (fun c => (c, matchScore query c)))).take limit

/-! ### The local store -/

/-- A record of `country-capital.json`: `{"country": …, "capital": …,
"type": "countryCapital"}` (src/main.py line 145). -/
structure CapitalEntry where
  country : String
  capital : String
  type : String
deriving DecidableEq, Repr

/-- The in-memory dict `countryCapital`, as an association list in insertion
order. -/
abbrev Mapping := List (String × String)

/-- Python dict assignment `m[k] = v`: overwrite the (first, and for a dict
only) binding of `k` in place, or append a new binding at the end. -/
def dictInsert : Mapping → String → String → Mapping
  | [], k, v => [(k, v)]
  | p :: m, k, v => if p.1 = k then (k, v) :: m else p :: dictInsert m k v

/-- Python dict lookup `m.get(k)`: the value of the (first, and for a dict
only) binding of `k`, or `none`. -/
def mapGet : Mapping → String → Option String
  | [], _ => none
  | p :: m, k => if p.1 = k then some p.2 else mapGet m k

/-- The module-level load loop (src/main.py lines 10–13):
`countryCapital[entry["country"].lower()] = entry["capital"]` over the
persisted sequence in order. -/
def buildMapping (data : List CapitalEntry) : Mapping :=
  data.foldl (fun m e => dictInsert m (pyLower e.country) e.capital) []

/-- Follows the claim's words (C10), for comparison with the code: the
capital of the entry occurring last in sequence order whose lowercased
country equals the key, if any. -/
def lastWins (data : List CapitalEntry) (k : String) : Option String :=
  data.foldl (fun acc e => if pyLower e.country = k then some e.capital else acc) none

/-- The keys of the derived mapping are pairwise distinct. -/
def keysNodup (m : Mapping) : Prop := (m.map (fun p => p.1)).Nodup

/-- Follows the spec's words (§3, for comparison with the code): country
unique within the stored sequence when compared case-insensitively, and
every capital non-empty. -/
def specStoreInvariant (data : List CapitalEntry) : Prop :=
  (data.map (fun e => pyLower e.country)).Nodup ∧ ∀ e ∈ data, e.capital ≠ ""

instance (data : List CapitalEntry) : Decidable (specStoreInvariant data) := by
  unfold specStoreInvariant; infer_instance

/-! ### Network effects -/

/-- The outcome of one `requests.get` call: a parsed successful (HTTP 200)
payload, a non-200 status code, or a raised `requests.RequestException`. -/
inductive HttpResult (α : Type) where
  | success : α → HttpResult α
  | httpError : Nat → HttpResult α
  | netFailure : HttpResult α
deriving DecidableEq, Repr

/-- `get_all_countries` (src/main.py lines 18–35). Input: the current
`all_countries_cache` and the outcome the REST-countries fetch would have
(already projected to the `name.common` list on success). Output: the
returned list, the new cache, and the number of outbound fetches made. -/
def get_all_countries (cache : Option (List String))
    (fetch : HttpResult (List String)) :
    List String × Option (List String) × Nat :=
  match cache with
  | some cached => (cached, some cached, 0)
  | none =>
      match fetch with
      | .success data => (data, some data, 1)
      | .httpError _ => ([], none, 1)
      | .netFailure => ([], none, 1)

/-- `validate_country` (src/main.py lines 37–48). Input: the name queried and
the outcome of the per-name lookup (already projected to
`data[0].name.common` on success). Output: `(is_valid, standardized_name)`
(the third component of the Python triple is always `None` and is dropped). -/
def validate_country (country_name : String) (response : HttpResult String) :
    Bool × Option String :=
  match response with
  | .success name => (true, some name)
  | .httpError _ => (false, none)
  | .netFailure => (false, none)

/-- `find_similar_countries` (src/main.py lines 50–62), threshold 50: fuzzy
candidates from the remote list, which may populate the cache. Returns the
candidate list and the new cache. -/
def find_similar_countries (cache : Option (List String))
    (fetch : HttpResult (List String)) (country_name : String) :
    List (String × Nat) × Option (List String) :=
  let res := get_all_countries cache fetch
  if res.1.isEmpty then ([], res.2.1)
  else ((extract country_name res.1 5).filter (fun m => 50 ≤ m.2), res.2.1)

/-- `find_similar_local_countries` (src/main.py lines 64–81), threshold 60:
fuzzy candidates from the local corpus, each match re-cased for display with
`.capitalize()`. -/
def find_similar_local_countries (country_name : String)
    (local_countries : List String) : List (String × Nat) :=
  if local_countries.isEmpty then []
  else
    ((extract country_name local_countries 5).filter (fun m => 60 ≤ m.2)).map
      (fun m => (pyCapitalize m.1, m.2))

/-! ### Application state and routes -/

/-- The mutable state of the process: the persisted `country-capital.json`
sequence, the in-memory dict `countryCapital`, and `all_countries_cache`. -/
structure AppState where
  fileEntries : List CapitalEntry
  countryCapital : Mapping
  all_countries_cache : Option (List String)
deriving DecidableEq, Repr

/-- Process startup (src/main.py lines 7–16): read the persisted sequence and
build the dict; the remote cache starts unset. -/
def loadStore (data : List CapitalEntry) : AppState :=
  ⟨data, buildMapping data, none⟩

/-- The exact lookup of the `/capital` route (src/main.py lines 89–90):
lowercase the raw form value (note: no strip) and consult the dict. This is
the spec's `resolveExact`. -/
def resolveExact (st : AppState) (query : String) : Option String :=
  mapGet st.countryCapital (pyLower query)

/-- The rendered outcome of the `/capital` route. -/
inductive CapitalView where
  | success : String → String → CapitalView
  | suggestions : String → List (String × Nat) → CapitalView
  | unknown : String → CapitalView
deriving DecidableEq, Repr

/-- The `/capital` route (src/main.py lines 87–103). Output: the view, the
state afterwards, and the number of outbound network calls made. -/
def capital (st : AppState) (form_city : String) :
    CapitalView × AppState × Nat :=
  let country := pyLower form_city
  match mapGet st.countryCapital country with
  | some city => (.success (pyCapitalize country) city, st, 0)
  | none =>
      let local_suggestions :=
        find_similar_local_countries country (st.countryCapital.map (fun p => p.1))
      if local_suggestions.isEmpty then (.unknown (pyCapitalize country), st, 0)
      else (.suggestions (pyCapitalize country) local_suggestions, st, 0)

/-- The rendered outcome of the `/save` and `/confirm_country` routes. -/
inductive SaveOutcome where
  | saved : CapitalEntry → SaveOutcome
  | suggestions : List (String × Nat) → SaveOutcome
  | invalidCountry : SaveOutcome
  | persistenceError : SaveOutcome
deriving DecidableEq, Repr

/-- The `/save` route (src/main.py lines 122–155). `validateResp` is the
outcome of the validation request, `countriesFetch` the outcome the
all-countries fetch would have if performed, and `writeOk` whether the
durable write of the JSON file completes. On a failed write the Python code
raises before line 153, so the dict is not updated (the file's contents after
a failed write are unspecified; the model leaves `fileEntries` untouched and
no theorem relies on them in that case). -/
def save (st : AppState) (countryForm cityForm : String)
    (validateResp : HttpResult String) (countriesFetch : HttpResult (List String))
    (writeOk : Bool) : SaveOutcome × AppState :=
  let country := pyStrip countryForm
  let city := pyStrip cityForm
  match validate_country country validateResp with
  | (true, some standardized_name) =>
      let city' := pyCapitalize city
      let countcap : CapitalEntry := ⟨standardized_name, city', "countryCapital"⟩
      if writeOk then
        (.saved countcap,
          { st with
              fileEntries := st.fileEntries ++ [countcap],
              countryCapital :=
                dictInsert st.countryCapital (pyLower standardized_name) city' })
      else (.persistenceError, st)
  | _ =>
      let res := find_similar_countries st.all_countries_cache countriesFetch country
      if res.1.isEmpty then
        (.invalidCountry, { st with all_countries_cache := res.2 })
      else (.suggestions res.1, { st with all_countries_cache := res.2 })

/-- The `/confirm_country` route (src/main.py lines 157–182): like `/save`
but with no suggestion fallback on failed validation. -/
def confirm_country (st : AppState) (countryForm cityForm : String)
    (validateResp : HttpResult String) (writeOk : Bool) :
    SaveOutcome × AppState :=
  let country := pyStrip countryForm
  let city := pyStrip cityForm
  match validate_country country validateResp with
  | (true, some standardized_name) =>
      let city' := pyCapitalize city
      let countcap : CapitalEntry := ⟨standardized_name, city', "countryCapital"⟩
      if writeOk then
        (.saved countcap,
          { st with
              fileEntries := st.fileEntries ++ [countcap],
              countryCapital :=
                dictInsert st.countryCapital (pyLower standardized_name) city' })
      else (.persistenceError, st)
  | _ => (.invalidCountry, st)

/-- The states the process can reach: startup from some persisted sequence,
followed by any interleaving of the state-bearing routes. -/
inductive Reachable : AppState → Prop
  | load (data : List CapitalEntry) : Reachable (loadStore data)
  | save_step (st : AppState) (c city : String) (v : HttpResult String)
      (r : HttpResult (List String)) (w : Bool) :
      Reachable st → Reachable (save st c city v r w).2
  | confirm_step (st : AppState) (c city : String) (v : HttpResult String)
      (w : Bool) : Reachable st → Reachable (confirm_country st c city v w).2
  | capital_step (st : AppState) (q : String) :
      Reachable st → Reachable (capital st q).2.1

/-! ### Lemmas about the derived mapping -/

theorem mapGet_dictInsert (m : Mapping) (k v k' : String) :
    mapGet (dictInsert m k v) k' = if k' = k then some v else mapGet m k' := by
  induction m with
  | nil =>
      by_cases h : k' = k
      · simp [dictInsert, mapGet, h]
      · simp [dictInsert, mapGet, h, Ne.symm h]
  | cons p m ih =>
      by_cases hpk : p.1 = k
      · by_cases h : k' = k
        · simp [dictInsert, hpk, mapGet, h]
        · simp [dictInsert, hpk, mapGet, h, Ne.symm h]
      · by_cases hpk' : p.1 = k'
        · have hk'k : ¬ k' = k := fun hh => hpk (hpk'.trans hh)
          simp [dictInsert, hpk, mapGet, hpk', hk'k]
        · simp [dictInsert, hpk, mapGet, hpk', ih]

theorem mapGet_foldl_insert (data : List CapitalEntry) (m : Mapping) (k : String) :
    mapGet (data.foldl (fun m e => dictInsert m (pyLower e.country) e.capital) m) k
      = data.foldl
          (fun acc e => if pyLower e.country = k then some e.capital else acc)
          (mapGet m k) := by
  induction data generalizing m with
  | nil => rfl
  | cons e data ih =>
      simp only [List.foldl_cons]
      rw [ih, mapGet_dictInsert]
      by_cases h : pyLower e.country = k
      · simp [h]
      · simp [h, Ne.symm h]

theorem mapGet_buildMapping (data : List CapitalEntry) (k : String) :
    mapGet (buildMapping data) k = lastWins data k :=
  mapGet_foldl_insert data [] k

theorem mem_keys_dictInsert (m : Mapping) (k v a : String) :
    a ∈ (dictInsert m k v).map (fun p => p.1)
      ↔ a ∈ m.map (fun p => p.1) ∨ a = k := by
  induction m with
  | nil => simp [dictInsert]
  | cons p m ih =>
      by_cases hpk : p.1 = k
      · have hd : dictInsert (p :: m) k v = (k, v) :: m := by simp [dictInsert, hpk]
        rw [hd]
        simp only [List.map_cons, List.mem_cons, hpk]
        tauto
      · have hd : dictInsert (p :: m) k v = p :: dictInsert m k v := by
          simp [dictInsert, hpk]
        rw [hd]
        simp only [List.map_cons, List.mem_cons, ih]
        tauto

theorem keysNodup_dictInsert (m : Mapping) (k v : String) (h : keysNodup m) :
    keysNodup (dictInsert m k v) := by
  induction m with
  | nil => simp [keysNodup, dictInsert]
  | cons p m ih =>
      unfold keysNodup at *
      rw [List.map_cons, List.nodup_cons] at h
      by_cases hpk : p.1 = k
      · have hd : dictInsert (p :: m) k v = (k, v) :: m := by simp [dictInsert, hpk]
        rw [hd, List.map_cons, List.nodup_cons]
        exact ⟨hpk ▸ h.1, h.2⟩
      · have hd : dictInsert (p :: m) k v = p :: dictInsert m k v := by
          simp [dictInsert, hpk]
        rw [hd, List.map_cons, List.nodup_cons]
        refine ⟨?_, ih h.2⟩
        intro hmem
        rcases (mem_keys_dictInsert m k v p.1).mp hmem with hm | hk
        · exact h.1 hm
        · exact hpk hk

theorem keysNodup_foldl_insert (data : List CapitalEntry) (m : Mapping)
    (h : keysNodup m) :
    keysNodup (data.foldl (fun m e => dictInsert m (pyLower e.country) e.capital) m) := by
  induction data generalizing m with
  | nil => exact h
  | cons e data ih =>
      simp only [List.foldl_cons]
      exact ih _ (keysNodup_dictInsert _ _ _ h)

theorem keysNodup_buildMapping (data : List CapitalEntry) :
    keysNodup (buildMapping data) :=
  keysNodup_foldl_insert data [] (by simp [keysNodup])

/-! ### Lemmas about the matcher -/

theorem mem_insertDesc (a p : String × Nat) (l : List (String × Nat)) :
    a ∈ insertDesc p l ↔ a = p ∨ a ∈ l := by
  induction l with
  | nil => simp [insertDesc]
  | cons q qs ih =>
      unfold insertDesc
      split
      · simp only [List.mem_cons, ih]
        tauto
      · simp [List.mem_cons]

theorem mem_sortDesc (a : String × Nat) (l : List (String × Nat)) :
    a ∈ sortDesc l ↔ a ∈ l := by
  induction l with
  | nil => simp [sortDesc]
  | cons p ps ih =>
      simp only [sortDesc, mem_insertDesc, ih, List.mem_cons]

/-! ### Frame lemmas about the routes -/

theorem capital_frame (st : AppState) (q : String) :
    (capital st q).2.1 = st ∧ (capital st q).2.2 = 0 := by
  refine ⟨?_, ?_⟩ <;>
    · simp only [capital]
      split
      · rfl
      · split <;> rfl

theorem save_countryCapital_cases (st : AppState) (c city : String)
    (v : HttpResult String) (r : HttpResult (List String)) (w : Bool) :
    ((save st c city v r w).2).countryCapital = st.countryCapital ∨
      ∃ std, ((save st c city v r w).2).countryCapital
          = dictInsert st.countryCapital (pyLower std) (pyCapitalize (pyStrip city)) := by
  cases v with
  | success name =>
      cases w with
      | true => exact Or.inr ⟨name, rfl⟩
      | false => exact Or.inl rfl
  | httpError code =>
      left
      simp only [save, validate_country]
      split <;> rfl
  | netFailure =>
      left
      simp only [save, validate_country]
      split <;> rfl

theorem confirm_countryCapital_cases (st : AppState) (c city : String)
    (v : HttpResult String) (w : Bool) :
    ((confirm_country st c city v w).2).countryCapital = st.countryCapital ∨
      ∃ std, ((confirm_country st c city v w).2).countryCapital
          = dictInsert st.countryCapital (pyLower std) (pyCapitalize (pyStrip city)) := by
  cases v with
  | success name =>
      cases w with
      | true => exact Or.inr ⟨name, rfl⟩
      | false => exact Or.inl rfl
  | httpError code => exact Or.inl rfl
  | netFailure => exact Or.inl rfl

theorem save_writeFail_countryCapital (st : AppState) (c city : String)
    (v : HttpResult String) (r : HttpResult (List String)) :
    ((save st c city v r false).2).countryCapital = st.countryCapital := by
  cases v with
  | success name => rfl
  | httpError code =>
      simp only [save, validate_country]
      split <;> rfl
  | netFailure =>
      simp only [save, validate_country]
      split <;> rfl

theorem confirm_writeFail_countryCapital (st : AppState) (c city : String)
    (v : HttpResult String) :
    ((confirm_country st c city v false).2).countryCapital = st.countryCapital := by
  cases v <;> rfl

/-! ### The claims -/

/-- C1, counterexample. The claim says every surrounding-whitespace variant of
a stored country resolves to the stored capital, and that all case and
whitespace variants of the same country resolve identically. The code's
lookup (src/main.py line 89) lowercases the form value but never strips it,
so with `{"France": "Paris"}` stored, `resolveExact " France"` misses
(`none`, not `some "Paris"`), differing from `resolveExact "France"`; and
with a later entry for the same lowercased country, the earlier stored entry
`{"France", "Paris"}` resolves (via its case variant `"France"`) to the later
entry's capital `"Lyon"`, not to its own stored capital. -/
theorem C1_counterexample :
    resolveExact (loadStore [CapitalEntry.mk "France" "Paris" "countryCapital"])
        " France" = none ∧
      resolveExact (loadStore [CapitalEntry.mk "France" "Paris" "countryCapital"])
        "France" = some "Paris" ∧
      resolveExact (loadStore [CapitalEntry.mk "France" "Paris" "countryCapital",
          CapitalEntry.mk "france" "Lyon" "countryCapital"])
        "France" = some "Lyon" := by
  decide

/-- C1, amended: for every stored entry, `resolveExact` applied to any CASE
variant of that entry's country name returns the capital of the most recent
stored entry for that lowercased country (in particular the entry's own
capital whenever it is the last such entry); all case variants resolve
identically. Surrounding-whitespace variants are not trimmed by the lookup
and in general miss. -/
theorem C1_case_variants_resolve (data : List CapitalEntry) (e : CapitalEntry)
    (q : String)
    (hlast : lastWins data (pyLower e.country) = some e.capital)
    (hq : pyLower q = pyLower e.country) :
    resolveExact (loadStore data) q = some e.capital := by
  show mapGet (buildMapping data) (pyLower q) = some e.capital
  rw [hq, mapGet_buildMapping]
  exact hlast

/-- C1, witness: with `{"France": "Paris"}` stored, the case variant
`"FRANCE"` resolves to `"Paris"`. -/
theorem C1_witness :
    resolveExact (loadStore [CapitalEntry.mk "France" "Paris" "countryCapital"])
      "FRANCE" = some "Paris" :=
  C1_case_variants_resolve [CapitalEntry.mk "France" "Paris" "countryCapital"]
    (CapitalEntry.mk "France" "Paris" "countryCapital") "FRANCE"
    (by decide) (by decide)

/-- C2: when remote validation succeeds with canonical name `std`, `/save`
persists an entry whose country is `std` (not the raw input) and whose
capital is the display-cased (`.capitalize()`) stripped input capital,
appends exactly that entry to the persisted sequence, and afterwards
`resolveExact` on any case variant of the canonical name (in particular its
normalized form) returns that capital. -/
theorem C2_canonical_save (st : AppState) (countryForm cityForm q std : String)
    (r : HttpResult (List String)) (hq : pyLower q = pyLower std) :
    (save st countryForm cityForm (.success std) r true).1
        = .saved (CapitalEntry.mk std (pyCapitalize (pyStrip cityForm)) "countryCapital") ∧
      ((save st countryForm cityForm (.success std) r true).2).fileEntries
        = st.fileEntries
            ++ [CapitalEntry.mk std (pyCapitalize (pyStrip cityForm)) "countryCapital"] ∧
      resolveExact (save st countryForm cityForm (.success std) r true).2 q
        = some (pyCapitalize (pyStrip cityForm)) := by
  refine ⟨rfl, rfl, ?_⟩
  show mapGet
      (dictInsert st.countryCapital (pyLower std) (pyCapitalize (pyStrip cityForm)))
      (pyLower q) = _
  rw [hq, mapGet_dictInsert, if_pos rfl]

/-- C2, witness: `confirmAndSave("Deutschland", "berlin")` with remote
canonicalization to `"Germany"` stores `{"Germany", "Berlin"}` and
`resolveExact("germany")` returns `"Berlin"`. -/
theorem C2_witness :
    resolveExact
        (save (loadStore []) "Deutschland" "berlin" (.success "Germany")
          .netFailure true).2 "germany" = some "Berlin" := by
  have h := C2_canonical_save (loadStore []) "Deutschland" "berlin" "germany"
    "Germany" .netFailure (by decide)
  exact h.2.2.trans (by decide)

/-- C3, counterexample. The claim says every reachable state has
case-insensitively unique countries among stored entries and non-empty
capitals. But `/save` appends unconditionally (no dedup) and never checks the
capital for emptiness: after saving `("Germany", "Berlin")` and then
`("Germany", "")` (both validated to `"Germany"`), the reachable state's
persisted sequence holds two entries with the same country and one empty
capital, violating both parts of the invariant. -/
theorem C3_counterexample :
    Reachable
        (save (save (loadStore []) "Germany" "Berlin" (.success "Germany")
            .netFailure true).2
          "Germany" "" (.success "Germany") .netFailure true).2 ∧
      ¬ specStoreInvariant
        ((save (save (loadStore []) "Germany" "Berlin" (.success "Germany")
            .netFailure true).2
          "Germany" "" (.success "Germany") .netFailure true).2).fileEntries := by
  constructor
  · exact Reachable.save_step _ _ _ _ _ _
      (Reachable.save_step _ _ _ _ _ _ (Reachable.load []))
  · decide

/-- C3, amended: in every reachable state the DERIVED MAPPING has at most one
binding per lowercased country (its key list is duplicate-free), and every
operation preserves this; the persisted sequence itself is an append-only
history that may contain several entries with the same case-insensitive
country, and capital non-emptiness is not enforced. -/
theorem C3_mapping_keys_unique (st : AppState) (h : Reachable st) :
    keysNodup st.countryCapital := by
  induction h with
  | load data => exact keysNodup_buildMapping data
  | save_step st c city v r w hst ih =>
      rcases save_countryCapital_cases st c city v r w with heq | ⟨std, heq⟩
      · rw [heq]; exact ih
      · rw [heq]; exact keysNodup_dictInsert _ _ _ ih
  | confirm_step st c city v w hst ih =>
      rcases confirm_countryCapital_cases st c city v w with heq | ⟨std, heq⟩
      · rw [heq]; exact ih
      · rw [heq]; exact keysNodup_dictInsert _ _ _ ih
  | capital_step st q hst ih =>
      rw [(capital_frame st q).1]; exact ih

/-- C3, witness: the state loaded from a one-entry file is reachable and its
mapping keys are duplicate-free. -/
theorem C3_witness :
    keysNodup (loadStore [CapitalEntry.mk "France" "Paris" "countryCapital"]).countryCapital :=
  C3_mapping_keys_unique
    (loadStore [CapitalEntry.mk "France" "Paris" "countryCapital"])
    (Reachable.load _)

/-- C4: every candidate returned by `suggestLocal` scores at least 60 and is
a corpus entry (re-cased to display form with `.capitalize()`, as the spec
prescribes), and at most 5 candidates are returned. -/
theorem C4_local_suggestions_bounded (q : String) (corpus : List String)
    (c : String × Nat) (hc : c ∈ find_similar_local_countries q corpus) :
    60 ≤ c.2 ∧ (∃ k ∈ corpus, c.1 = pyCapitalize k) ∧
      (find_similar_local_countries q corpus).length ≤ 5 := by
  unfold find_similar_local_countries at hc ⊢
  by_cases he : corpus.isEmpty
  · rw [if_pos he] at hc
    simp at hc
  · rw [if_neg he] at hc ⊢
    refine ⟨?_, ?_, ?_⟩
    · rcases List.mem_map.mp hc with ⟨m, hm, hcm⟩
      rcases List.mem_filter.mp hm with ⟨_, hsc⟩
      rw [← hcm]
      exact of_decide_eq_true hsc
    · rcases List.mem_map.mp hc with ⟨m, hm, hcm⟩
      rcases List.mem_filter.mp hm with ⟨hmem, _⟩
      simp only [extract] at hmem
      have hmem2 := List.take_subset 5 _ hmem
      rw [mem_sortDesc] at hmem2
      rcases List.mem_map.mp hmem2 with ⟨k, hk, hkm⟩
      refine ⟨k, hk, ?_⟩
      rw [← hcm, ← hkm]
    · calc (((extract q corpus 5).filter (fun m => 60 ≤ m.2)).map
            (fun m => (pyCapitalize m.1, m.2))).length
          = ((extract q corpus 5).filter (fun m => 60 ≤ m.2)).length :=
            List.length_map _ _
        _ ≤ (extract q corpus 5).length := List.length_filter_le _ _
        _ ≤ 5 := by
            simp only [extract]
            rw [List.length_take]
            exact Nat.min_le_left _ _

/-- C4, witness: with local corpus `["france"]`, the query `"Franse"` yields
the single candidate `("France", 83)`: score ≥ 60, a re-cased corpus entry,
and at most 5 results. -/
theorem C4_witness :
    60 ≤ (("France", 83) : String × Nat).2 ∧
      (∃ k ∈ ["france"], (("France", 83) : String × Nat).1 = pyCapitalize k) ∧
      (find_similar_local_countries "Franse" ["france"]).length ≤ 5 :=
  C4_local_suggestions_bounded "Franse" ["france"] ("France", 83) (by decide)

/-- C5: the matcher's score is computed between the normalized (trimmed,
lowercased) query and the normalized corpus entry; it is at most 100 (it is a
`Nat`, hence at least 0), symmetric in its two arguments, and equals 100
exactly when the two normalized strings are identical — in particular two
strings differing only in case or surrounding whitespace score 100. -/
theorem C5_matcher_score (q e : String) :
    matchScore q e ≤ 100 ∧ matchScore q e = matchScore e q ∧
      (matchScore q e = 100 ↔ normalize q = normalize e) := by
  refine ⟨ratioScore_le_100 _ _, ratioScore_symm _ _, ?_⟩
  unfold matchScore
  rw [ratioScore_eq_100_iff]
  constructor
  · exact fun h => String.ext h
  · intro h
    rw [h]

/-- C6: `allCountries` returns the cached list without fetching when the
cache is populated; on a cache miss it performs exactly one fetch, populating
the cache and returning the list on success (HTTP 200), and on a non-success
status or a network failure it returns the empty sequence and leaves the
cache unset (the function is total — no error is signalled to the caller). -/
theorem C6_remote_cache :
    (∀ cached fetch, get_all_countries (some cached) fetch = (cached, some cached, 0)) ∧
      (∀ data, get_all_countries none (.success data) = (data, some data, 1)) ∧
      (∀ code, get_all_countries none (.httpError code) = ([], none, 1)) ∧
      get_all_countries none .netFailure = ([], none, 1) :=
  ⟨fun _ _ => rfl, fun _ => rfl, fun _ => rfl, rfl⟩

/-- C7: if the durable write of `insert` fails (PersistenceError — modelled
by `writeOk = false`, on which the Python code raises before the dict update
on line 153), the in-memory derived mapping is unchanged for both saving
routes, so `resolveExact` afterwards agrees everywhere with `resolveExact`
before: the store never advertises an entry whose write did not complete. -/
theorem C7_persistence_failure_frame (st : AppState) (c city : String)
    (v : HttpResult String) (r : HttpResult (List String)) :
    ((save st c city v r false).2).countryCapital = st.countryCapital ∧
      ((confirm_country st c city v false).2).countryCapital = st.countryCapital ∧
      (∀ q, resolveExact (save st c city v r false).2 q = resolveExact st q) ∧
      (∀ q, resolveExact (confirm_country st c city v false).2 q = resolveExact st q) := by
  have h1 := save_writeFail_countryCapital st c city v r
  have h2 := confirm_writeFail_countryCapital st c city v
  exact ⟨h1, h2,
    fun q => by unfold resolveExact; rw [h1],
    fun q => by unfold resolveExact; rw [h2]⟩

/-- C8: `validate` returns NotFound (`(false, none)`, never an exception to
the caller) both on a non-success response and on a network failure, and
returns the directory's canonical display form only on a success response. -/
theorem C8_validate_never_fatal :
    (∀ name std, validate_country name (.success std) = (true, some std)) ∧
      (∀ name code, validate_country name (.httpError code) = (false, none)) ∧
      (∀ name, validate_country name .netFailure = (false, none)) :=
  ⟨fun _ _ => rfl, fun _ _ => rfl, fun _ => rfl⟩

/-- C9: the `/capital` query path (exact hit, local suggestions, or unknown —
i.e. `resolveExact` and `suggestLocal`) leaves the whole state unchanged
(persisted sequence, derived mapping, and remote cache) and performs zero
network calls; `resolveExact` is a pure read of the derived mapping. -/
theorem C9_query_path_pure (st : AppState) (q : String) :
    (capital st q).2.1 = st ∧ (capital st q).2.2 = 0 ∧
      resolveExact st q = mapGet st.countryCapital (pyLower q) :=
  ⟨(capital_frame st q).1, (capital_frame st q).2, rfl⟩

/-- C10: when the persisted sequence contains several entries whose country
names coincide after lowercasing, lookup returns the capital of the entry
occurring last in sequence order: the load-time mapping build overwrites the
key at each later entry (`mapGet ∘ buildMapping` equals the last-wins
fold), and each insert likewise overwrites the binding of its key. -/
theorem C10_last_entry_wins :
    (∀ data k, mapGet (buildMapping data) k = lastWins data k) ∧
      (∀ m k v, mapGet (dictInsert m k v) k = some v) := by
  refine ⟨fun data k => mapGet_buildMapping data k, fun m k v => ?_⟩
  rw [mapGet_dictInsert, if_pos rfl]

end WebApp
